import Mathlib

/-!
Verification of the rate-limiter core of `fc-pos-golang-rate-limiter`.

The development shallowly embeds the Go sources:

* `internal/limiter/redis_strategy.go` — the sliding-window + penalty-box
  decision strategy over Redis (`RedisStrategy.Allow`, `RedisStrategy.Reset`,
  `RedisStrategy.checkBlockStatus`);
* `internal/limiter/limiter.go` — the quota resolver (`RateLimiter.Check`,
  `RateLimiter.createKey`);
* `internal/config` — quota profiles (`RateLimitConfig`, `TokenConfig`,
  `TokenConfigs.GetTokenConfig`);
* `internal/middleware/ratelimit.go` — identifier extraction and the
  admission filter (`extractIP`, `RateLimitMiddleware`).

Modelling conventions:

* Instants and durations are integer nanoseconds (`Int`), mirroring Go's
  `time.Time.UnixNano` / `time.Duration`.  Redis stores sorted-set scores as
  `float64`; the model keeps them exact (the float rounding of huge
  nanosecond values is abstracted away).
* Redis TTLs are modelled by absolute expiry instants.  A key whose expiry
  instant is `≤ now` behaves as absent (Redis lazy expiration); `TTL` of a
  live key at `now` with expiry `e` is `e - now`.
* The per-identifier Redis state (one window sorted set plus one penalty
  string key) is a `Store`; the whole database is a function from key
  strings to `Store`s.
* Redis sorted sets are lists without duplicate members: `ZAdd` of an
  existing member overwrites it (the member string equals the score here),
  which `List.insert` reproduces.
* Error returns of the Go code (network failures) are not part of the state
  machine; the middleware's reaction to an opaque `Check` error is modelled
  by an `Except` input.
-/

namespace RateLimiterProof

/-- Nanoseconds per second (`time.Second`). -/
def nsPerSec : Int := 1000000000

/-- Nanoseconds per minute (`time.Minute`), used by `pipe.Expire(ctx, key, window+time.Minute)`. -/
def minuteNs : Int := 60 * nsPerSec

/-- The penalty ("block") key contents: the stored string value and the
absolute instant at which its TTL expires (`SET key value blockDuration`). -/
structure BlockEntry where
  val : String
  expiry : Int
  deriving Repr, DecidableEq

/-- Per-identifier Redis state used by `RedisStrategy`
(`internal/limiter/redis_strategy.go`): the window sorted set (`key`), the
absolute expiry of the window key (set by `Expire`), and the penalty key
(`key + ":block"`). -/
structure Store where
  window : List Int
  windowExpiry : Option Int
  block : Option BlockEntry
  deriving Repr, DecidableEq

/-- A fresh identifier: no keys exist. -/
def Store.empty : Store := ⟨[], none, none⟩

/-- The verdict tuple `(allowed, remaining, resetTime)` returned by
`RedisStrategy.Allow`. -/
structure Verdict where
  allowed : Bool
  remaining : Int
  resetAt : Int
  deriving Repr, DecidableEq

/-- The window sorted set as observed at instant `now`: if the window key's
TTL has elapsed the key is gone (Redis expiration). -/
def liveWindow (s : Store) (now : Int) : List Int :=
  match s.windowExpiry with
  | none => s.window
  | some e => if now < e then s.window else []

/-- Model of `pipe.ZRemRangeByScore(ctx, key, "0", windowStart)`:
removes every member whose score lies in `[0, windowStart]`. -/
def prune (l : List Int) (windowStart : Int) : List Int :=
  l.filter fun t => !(decide (0 ≤ t) && decide (t ≤ windowStart))

/-- Model of `RedisStrategy.checkBlockStatus`
(`redis_strategy.go:125-143`): `EXISTS` on the block key, and when present,
`now.Add(blockTTL)` where `blockTTL = TTL(blockKey)`. -/
def checkBlockStatus (s : Store) (now : Int) : Bool × Int :=
  match s.block with
  | none => (false, 0)
  | some b => if now < b.expiry then (true, now + (b.expiry - now)) else (false, 0)

/-- Model of `RedisStrategy.Allow` (`redis_strategy.go:22-105`): the
sliding-window + penalty-box decision.  Returns the verdict and the
post-call per-identifier state.

Path structure mirrors the Go code: penalty check first (no writes when
blocked), then prune + count in one pipeline, then the pre-insertion limit
test; denial writes the block key with TTL `blockDuration`; admission adds
`(score = now, member = now)` and refreshes the window key's TTL to
`window + time.Minute`, computing `resetTime` from the smallest score
(`ZRangeWithScores key 0 0`) when the pre-insertion count was positive. -/
def Allow (s : Store) (limit window blockDuration now : Int) : Verdict × Store :=
  let windowStart := now - window
  let bs := checkBlockStatus s now
  if bs.1 then
    ({ allowed := false, remaining := 0, resetAt := bs.2 }, s)
  else
    let pruned := prune (liveWindow s now) windowStart
    let count : Int := pruned.length
    let allowed : Bool := decide (count < limit)
    let remaining := if limit - count < 0 then 0 else limit - count
    if !allowed then
      ({ allowed := false, remaining := remaining, resetAt := now + blockDuration },
       { s with window := pruned, block := some ⟨"1", now + blockDuration⟩ })
    else
      let newWindow := pruned.insert now
      let remaining1 := if limit - count - 1 < 0 then 0 else limit - count - 1
      let resetTime :=
        if 0 < count then
          match newWindow.min? with
          | some m => m + window
          | none => now + window
        else now + window
      ({ allowed := true, remaining := remaining1, resetAt := resetTime },
       { s with window := newWindow, windowExpiry := some (now + window + minuteNs) })

/-- Model of `RedisStrategy.Reset` (`redis_strategy.go:107-114`): one
pipelined batch deleting the window key and the block key.  `DEL` of an
absent key is a no-op that never errors, so the model is total. -/
def Reset (_ : Store) : Store := ⟨[], none, none⟩

/-- Default per-IP quota profile (`config.RateLimitConfig`,
`internal/config/config.go:21-25`). -/
structure RateLimitConfig where
  IPLimit : Int
  WindowSeconds : Int
  BlockDurationSeconds : Int
  deriving Repr, DecidableEq

/-- `RateLimitConfig.GetWindowDuration` (`config.go:77-79`), in ns. -/
def RateLimitConfig.GetWindowDuration (c : RateLimitConfig) : Int :=
  c.WindowSeconds * nsPerSec

/-- `RateLimitConfig.GetBlockDuration` (`config.go:81-83`), in ns. -/
def RateLimitConfig.GetBlockDuration (c : RateLimitConfig) : Int :=
  c.BlockDurationSeconds * nsPerSec

/-- Per-token quota profile (`config.TokenConfig`). -/
structure TokenConfig where
  Limit : Int
  WindowSeconds : Int
  BlockDurationSeconds : Int
  deriving Repr, DecidableEq

/-- `TokenConfig.GetWindowDuration`, in ns. -/
def TokenConfig.GetWindowDuration (c : TokenConfig) : Int :=
  c.WindowSeconds * nsPerSec

/-- `TokenConfig.GetBlockDuration`, in ns. -/
def TokenConfig.GetBlockDuration (c : TokenConfig) : Int :=
  c.BlockDurationSeconds * nsPerSec

/-- `config.TokenConfigs`: the token → profile map, as an association list
(the JSON object has distinct keys). -/
def TokenConfigs := List (String × TokenConfig)

/-- `TokenConfigs.GetTokenConfig`: the `config, exists := t[token]` map
lookup. -/
def GetTokenConfig (tcs : TokenConfigs) (token : String) : Option TokenConfig :=
  tcs.lookup token

/-- `limiter.CheckResult` (`internal/limiter/limiter.go:25-32`). -/
structure CheckResult where
  Allowed : Bool
  Remaining : Int
  ResetTime : Int
  Limit : Int
  Identifier : String
  IsToken : Bool
  deriving Repr, DecidableEq

/-- `RateLimiter.createKey` (`limiter.go:85-90`). -/
def createKey (identifier : String) (isToken : Bool) : String :=
  if isToken then "token:" ++ identifier else "ip:" ++ identifier

/-- Model of `RateLimiter.Check` (`limiter.go:35-78`): resolve the quota
profile (token profile when `isToken` and the lookup hits, IP default
otherwise), build the storage key, run the storage strategy, return the
result and the updated database (a map from keys to per-identifier state). -/
def Check (db : String → Store) (ipConfig : RateLimitConfig) (tokenConfigs : TokenConfigs)
    (identifier : String) (isToken : Bool) (now : Int) : CheckResult × (String → Store) :=
  let params : Int × Int × Int :=
    if isToken then
      match GetTokenConfig tokenConfigs identifier with
      | none => (ipConfig.IPLimit, ipConfig.GetWindowDuration, ipConfig.GetBlockDuration)
      | some tc => (tc.Limit, tc.GetWindowDuration, tc.GetBlockDuration)
    else
      (ipConfig.IPLimit, ipConfig.GetWindowDuration, ipConfig.GetBlockDuration)
  let key := createKey identifier isToken
  let r := Allow (db key) params.1 params.2.1 params.2.2 now
  ({ Allowed := r.1.allowed, Remaining := r.1.remaining, ResetTime := r.1.resetAt,
     Limit := params.1, Identifier := identifier, IsToken := isToken },
   fun k => if k = key then r.2 else db k)

/-- The request data consulted by the middleware
(`internal/middleware/ratelimit.go`).  A Go header `Get` returns `""` for an
absent header, so absent headers are empty strings. -/
structure Request where
  xForwardedFor : String
  xRealIP : String
  remoteAddr : String
  apiKey : String
  deriving Repr, DecidableEq

/-- Character-level model of `strings.Split(s, string(sep))` for a
one-character separator: splits at every occurrence of `sep`; the result is
always non-empty (`strings.Split` never returns an empty slice). -/
def splitOnChar (sep : Char) : List Char → List (List Char)
  | [] => [[]]
  | c :: rest =>
      let r := splitOnChar sep rest
      if c = sep then [] :: r
      else (c :: r.headD []) :: r.tail

/-- Character-level model of `strings.TrimSpace`: drop leading and trailing
whitespace. -/
def trimChars (cs : List Char) : List Char :=
  ((cs.dropWhile Char.isWhitespace).reverse.dropWhile Char.isWhitespace).reverse

/-- Model of `net.SplitHostPort` restricted to the host component: `some
host` on success, `none` when Go would return an error (no colon, too many
colons, or a malformed bracket form). -/
def splitHostPortHost (addr : String) : Option String :=
  match addr.data with
  | '[' :: rest =>
      match splitOnChar ']' rest with
      | [h, p] => if p.headD ' ' = ':' then some (String.mk h) else none
      | _ => none
  | cs =>
      match splitOnChar ':' cs with
      | [h, _] => some (String.mk h)
      | _ => none

/-- Model of `extractIP` (`ratelimit.go:78-103`): first comma-delimited,
whitespace-trimmed element of `X-Forwarded-For` when non-empty, else
`X-Real-IP`, else `RemoteAddr` with the port stripped (or `RemoteAddr`
itself when `SplitHostPort` errors).  `strings.Split` always returns at
least one element, so the `len(ips) > 0` test in the Go code is always
true; `List.headD` reproduces `ips[0]`. -/
def extractIP (r : Request) : String :=
  let fromXff : Option String :=
    if r.xForwardedFor = "" then none
    else
      let ip := String.mk (trimChars ((splitOnChar ',' r.xForwardedFor.data).headD []))
      if ip = "" then none else some ip
  match fromXff with
  | some ip => ip
  | none =>
      if r.xRealIP = "" then
        match splitHostPortHost r.remoteAddr with
        | some h => h
        | none => r.remoteAddr
      else r.xRealIP

/-- Identifier selection in `RateLimitMiddleware` (`ratelimit.go:30-45`):
a non-empty `API_KEY` header selects the token path with the header value
as identifier; otherwise the extracted IP is used. -/
def selectIdentifier (r : Request) : String × Bool :=
  let ip := extractIP r
  let apiKey := r.apiKey
  if apiKey ≠ "" then (apiKey, true) else (ip, false)

/-- Observable middleware effects (`ratelimit.go:48-73`):
`rateLimitHeaders` carries the numeric content of the three
`X-RateLimit-*` response headers when they are set (`strconv.Itoa` /
RFC 3339 rendering abstracted to the rendered values), `nextCalled` is
whether the downstream handler runs, and `status429` is whether the 429
rate-limit error body is written. -/
structure MwResponse where
  rateLimitHeaders : Option (Int × Int × Int)
  nextCalled : Bool
  status429 : Bool
  deriving Repr, DecidableEq

/-- Model of the response phase of `RateLimitMiddleware`
(`ratelimit.go:48-73`), as a function of the `Check` outcome: on error,
log-and-continue with no headers (fail open); on success, set the three
headers from the verdict and either serve the handler or write the 429. -/
def RateLimitMiddleware (checkOutcome : Except String CheckResult) : MwResponse :=
  match checkOutcome with
  | .error _ => { rateLimitHeaders := none, nextCalled := true, status429 := false }
  | .ok result =>
      { rateLimitHeaders := some (result.Limit, result.Remaining, result.ResetTime),
        nextCalled := result.Allowed,
        status429 := !result.Allowed }

/-- The instants of the admitted calls in a serial sequence of `Allow`
calls against one identifier: the calls are threaded through the state one
at a time, with fixed `limit`, `window` and `blockDuration`. -/
def admittedTimes (limit window blockDuration : Int) : Store → List Int → List Int
  | _, [] => []
  | s, t :: ts =>
      let r := Allow s limit window blockDuration t
      if r.1.allowed then t :: admittedTimes limit window blockDuration r.2 ts
      else admittedTimes limit window blockDuration r.2 ts

/-- `inWin window τ a`: instant `a` lies in the rolling window `(τ - window, τ]`. -/
def inWin (window τ a : Int) : Bool :=
  decide (τ - window < a) && decide (a ≤ τ)

/-! ### Helper lemmas -/

theorem length_filter_mono {p q : Int → Bool} (l : List Int)
    (h : ∀ a, p a = true → q a = true) :
    (l.filter p).length ≤ (l.filter q).length :=
  (List.monotone_filter_right l h).length_le

theorem length_le_of_nodup_subset {l₁ l₂ : List Int} (h₁ : l₁.Nodup) (h₂ : l₁ ⊆ l₂) :
    l₁.length ≤ l₂.length :=
  (h₁.subperm h₂).length_le

theorem mem_of_min?_eq_some {l : List Int} {m : Int} (h : l.min? = some m) : m ∈ l :=
  List.min?_mem (fun a b => min_choice a b) h

theorem liveWindow_subset (s : Store) (now : Int) : liveWindow s now ⊆ s.window := by
  unfold liveWindow
  cases s.windowExpiry with
  | none => exact fun a ha => ha
  | some e =>
      by_cases h : now < e
      · simp [h]
      · simp [h]

theorem mem_of_mem_prune {l : List Int} {ws a : Int} (h : a ∈ prune l ws) : a ∈ l :=
  (List.mem_filter.mp h).1

theorem prune_kept {l : List Int} {ws a : Int} (h : a ∈ prune l ws) :
    ¬(0 ≤ a ∧ a ≤ ws) := by
  have h2 := (List.mem_filter.mp h).2
  simp only [prune, Bool.not_eq_eq_eq_not, Bool.not_true, Bool.and_eq_false_imp,
    decide_eq_true_eq, decide_eq_false_iff_not] at h2 ⊢
  omega

theorem mem_prune_of_mem {l : List Int} {ws a : Int} (ha : a ∈ l)
    (h : ¬(0 ≤ a ∧ a ≤ ws)) : a ∈ prune l ws := by
  refine List.mem_filter.mpr ⟨ha, ?_⟩
  simp only [Bool.not_eq_eq_eq_not, Bool.not_true, Bool.and_eq_false_imp,
    decide_eq_true_eq, decide_eq_false_iff_not]
  omega

/-- Path characterization: live penalty key ⟹ denial with the key's TTL,
no state change. -/
theorem Allow_blocked {s : Store} {now : Int} {b : BlockEntry}
    (hb : s.block = some b) (hlive : now < b.expiry) (limit window bd : Int) :
    Allow s limit window bd now =
      ({ allowed := false, remaining := 0, resetAt := now + (b.expiry - now) }, s) := by
  simp [Allow, checkBlockStatus, hb, hlive]

/-- Path characterization: no live penalty key and post-prune count at or
above the limit ⟹ denial, penalty key written, current instant not added. -/
theorem Allow_denied {s : Store} {now limit window : Int}
    (hb : (checkBlockStatus s now).1 = false)
    (hc : limit ≤ ((prune (liveWindow s now) (now - window)).length : Int)) (bd : Int) :
    Allow s limit window bd now =
      ({ allowed := false, remaining := 0, resetAt := now + bd },
       { s with window := prune (liveWindow s now) (now - window),
                block := some ⟨"1", now + bd⟩ }) := by
  have hcount : ¬ (((prune (liveWindow s now) (now - window)).length : Int) < limit) := by
    omega
  have hrem :
      (if limit - ((prune (liveWindow s now) (now - window)).length : Int) < 0 then 0
       else limit - ((prune (liveWindow s now) (now - window)).length : Int)) = (0 : Int) := by
    omega
  simp only [Allow, hb, Bool.false_eq_true, if_false, hcount, decide_eq_false_iff_not,
    not_false_eq_true, decide_eq_true_eq]
  simp [hcount, hrem]
  omega

/-- Path characterization: no live penalty key and post-prune count below
the limit ⟹ admission, instant recorded, window TTL refreshed. -/
theorem Allow_admitted {s : Store} {now limit window : Int}
    (hb : (checkBlockStatus s now).1 = false)
    (hc : ((prune (liveWindow s now) (now - window)).length : Int) < limit) (bd : Int) :
    Allow s limit window bd now =
      ({ allowed := true,
         remaining :=
           if limit - ((prune (liveWindow s now) (now - window)).length : Int) - 1 < 0 then 0
           else limit - ((prune (liveWindow s now) (now - window)).length : Int) - 1,
         resetAt :=
           if 0 < ((prune (liveWindow s now) (now - window)).length : Int) then
             match ((prune (liveWindow s now) (now - window)).insert now).min? with
             | some m => m + window
             | none => now + window
           else now + window },
       { s with window := (prune (liveWindow s now) (now - window)).insert now,
                windowExpiry := some (now + window + minuteNs) }) := by
  simp [Allow, hb, hc]

theorem insert_min?_isSome (l : List Int) (a : Int) : ∃ m, (l.insert a).min? = some m := by
  cases h : (l.insert a).min? with
  | some m => exact ⟨m, rfl⟩
  | none =>
      have hnil : l.insert a = [] := List.min?_eq_none_iff.mp h
      have hmem : a ∈ l.insert a := List.mem_insert_self a l
      rw [hnil] at hmem
      simp at hmem

/-! ### Claim theorems -/

/-- C2: when the penalty key exists (is live) the call returns
`(admitted = false, remaining = 0, reset_at = now + t)` with `t` the
penalty key's remaining TTL, and performs no writes: the state is returned
unchanged, regardless of the window set's contents. -/
theorem claim_c2_penalty_path (s : Store) (limit window bd now : Int) (b : BlockEntry)
    (hb : s.block = some b) (hlive : now < b.expiry) :
    Allow s limit window bd now =
      ({ allowed := false, remaining := 0, resetAt := now + (b.expiry - now) }, s) :=
  Allow_blocked hb hlive limit window bd

theorem claim_c2_witness :
    Allow ⟨[3], some 1000, some ⟨"1", 50⟩⟩ 5 10 20 7 =
      ({ allowed := false, remaining := 0, resetAt := 7 + (50 - 7) },
       ⟨[3], some 1000, some ⟨"1", 50⟩⟩) :=
  claim_c2_penalty_path ⟨[3], some 1000, some ⟨"1", 50⟩⟩ 5 10 20 7 ⟨"1", 50⟩ rfl (by decide)

/-- C3: with no live penalty key and post-prune cardinality `c ≥ limit`,
the call writes the penalty key with value `"1"` and TTL equal to the
penalty duration (expiry `now + blockDuration`), returns
`(false, 0, now + blockDuration)`, and does not add the current instant to
the window set (the stored window is exactly the pruned one). -/
theorem claim_c3_overlimit_denial (s : Store) (limit window bd now : Int)
    (hb : (checkBlockStatus s now).1 = false)
    (hc : limit ≤ ((prune (liveWindow s now) (now - window)).length : Int)) :
    Allow s limit window bd now =
      ({ allowed := false, remaining := 0, resetAt := now + bd },
       { s with window := prune (liveWindow s now) (now - window),
                block := some ⟨"1", now + bd⟩ }) :=
  Allow_denied hb hc bd

theorem claim_c3_witness :
    Allow ⟨[5, 6], some 1000, none⟩ 2 10 20 8 =
      ({ allowed := false, remaining := 0, resetAt := 28 },
       ⟨[5, 6], some 1000, some ⟨"1", 28⟩⟩) := by
  have h := claim_c3_overlimit_denial ⟨[5, 6], some 1000, none⟩ 2 10 20 8 (by decide) (by decide)
  rw [h]
  decide

/-- C9: `Reset` deletes the window key and the penalty key, succeeds on any
state (it is total, also when one or both keys are absent), and is
idempotent: after a reset both keys are absent, and a second reset leaves
the state unchanged. -/
theorem claim_c9_reset_idempotent (s : Store) :
    (Reset s).window = [] ∧ (Reset s).windowExpiry = none ∧ (Reset s).block = none ∧
    Reset (Reset s) = Reset s :=
  ⟨rfl, rfl, rfl, rfl⟩

/-- C10: with `limit ≤ 0` and no live penalty key, the call is denied with
`remaining = 0` and the penalty key is written with TTL equal to the
penalty duration; in particular this covers the very first request of a
fresh identifier (empty window) with a configured limit of `0`. -/
theorem claim_c10_nonpositive_limit (s : Store) (limit window bd now : Int)
    (hb : (checkBlockStatus s now).1 = false) (hl : limit ≤ 0) :
    (Allow s limit window bd now).1.allowed = false ∧
    (Allow s limit window bd now).1.remaining = 0 ∧
    (Allow s limit window bd now).2.block = some ⟨"1", now + bd⟩ := by
  have hc : limit ≤ ((prune (liveWindow s now) (now - window)).length : Int) := by omega
  rw [Allow_denied hb hc bd]
  exact ⟨rfl, rfl, rfl⟩

/-- C4: with no live penalty key and post-prune cardinality `c < limit`,
the call records `(score = now, member = now)` in the window set, refreshes
the window key's expiry to `now + window + 60s`, and returns admitted with
`remaining = max 0 (limit - c - 1)`; `reset_at` is the smallest score then
in the set plus `window` when `c > 0`, and `now + window` when `c = 0`. -/
theorem claim_c4_admission (s : Store) (limit window bd now : Int)
    (hb : (checkBlockStatus s now).1 = false)
    (hc : ((prune (liveWindow s now) (now - window)).length : Int) < limit) :
    (Allow s limit window bd now).1.allowed = true ∧
    (Allow s limit window bd now).1.remaining =
      max 0 (limit - ((prune (liveWindow s now) (now - window)).length : Int) - 1) ∧
    (Allow s limit window bd now).2 =
      { s with window := (prune (liveWindow s now) (now - window)).insert now,
               windowExpiry := some (now + window + minuteNs) } ∧
    (0 < ((prune (liveWindow s now) (now - window)).length : Int) →
      ∃ m, ((prune (liveWindow s now) (now - window)).insert now).min? = some m ∧
        (Allow s limit window bd now).1.resetAt = m + window) ∧
    (((prune (liveWindow s now) (now - window)).length : Int) = 0 →
      (Allow s limit window bd now).1.resetAt = now + window) := by
  rw [Allow_admitted hb hc bd]
  refine ⟨rfl, ?_, rfl, ?_, ?_⟩
  · dsimp only
    omega
  · intro hpos
    obtain ⟨m, hm⟩ := insert_min?_isSome (prune (liveWindow s now) (now - window)) now
    refine ⟨m, hm, ?_⟩
    dsimp only
    rw [if_pos hpos, hm]
  · intro h0
    dsimp only
    rw [if_neg (by omega)]

theorem claim_c4_witness :
    (Allow ⟨[5], some 1000, none⟩ 3 10 20 8).1.allowed = true ∧
    (Allow ⟨[5], some 1000, none⟩ 3 10 20 8).1.remaining = 1 ∧
    (Allow ⟨[5], some 1000, none⟩ 3 10 20 8).2 = ⟨[8, 5], some (8 + 10 + minuteNs), none⟩ ∧
    (Allow ⟨[5], some 1000, none⟩ 3 10 20 8).1.resetAt = 15 := by
  obtain ⟨h1, h2, h3, h4, -⟩ :=
    claim_c4_admission ⟨[5], some 1000, none⟩ 3 10 20 8 (by decide) (by decide)
  obtain ⟨m, hm, hr⟩ := h4 (by decide)
  have hm5 : ((prune (liveWindow (⟨[5], some 1000, none⟩ : Store) 8) (8 - 10)).insert 8).min? =
      some 5 := by decide
  rw [hm5] at hm
  refine ⟨h1, ?_, ?_, ?_⟩
  · rw [h2]; decide
  · rw [h3]; decide
  · rw [hr]
    cases hm
    decide

/-- C5: every verdict emitted by `Allow` (penalty-check denial, over-limit
denial, or admission) has `remaining ≥ 0` and `reset_at ≥ now`, and every
denied verdict has `remaining = 0` — under the data model's constraints:
non-negative window and penalty durations, and window members that are
genuine (non-negative) timestamps. -/
theorem claim_c5_verdict_bounds (s : Store) (limit window bd now : Int)
    (hw : 0 ≤ window) (hbd : 0 ≤ bd) (hmem : ∀ a ∈ s.window, 0 ≤ a) :
    0 ≤ (Allow s limit window bd now).1.remaining ∧
    now ≤ (Allow s limit window bd now).1.resetAt ∧
    ((Allow s limit window bd now).1.allowed = false →
      (Allow s limit window bd now).1.remaining = 0) := by
  by_cases hb : (checkBlockStatus s now).1 = true
  · obtain ⟨b, hsb, hlt⟩ : ∃ b, s.block = some b ∧ now < b.expiry := by
      unfold checkBlockStatus at hb
      cases hsb : s.block with
      | none => rw [hsb] at hb; simp at hb
      | some b =>
          rw [hsb] at hb
          by_cases h : now < b.expiry
          · exact ⟨b, rfl, h⟩
          · simp [h] at hb
    rw [Allow_blocked hsb hlt]
    exact ⟨le_refl 0, by dsimp only; omega, fun _ => rfl⟩
  · have hb' : (checkBlockStatus s now).1 = false := by
      cases h : (checkBlockStatus s now).1
      · rfl
      · exact absurd h hb
    by_cases hc : ((prune (liveWindow s now) (now - window)).length : Int) < limit
    · rw [Allow_admitted hb' hc bd]
      refine ⟨?_, ?_, ?_⟩
      · dsimp only
        omega
      · dsimp only
        by_cases hpos : 0 < ((prune (liveWindow s now) (now - window)).length : Int)
        · rw [if_pos hpos]
          obtain ⟨m, hm⟩ := insert_min?_isSome (prune (liveWindow s now) (now - window)) now
          rw [hm]
          dsimp only
          have hmmem := mem_of_min?_eq_some hm
          rcases List.mem_insert_iff.mp hmmem with h1 | h2
          · omega
          · have hml : m ∈ liveWindow s now := mem_of_mem_prune h2
            have hms : m ∈ s.window := liveWindow_subset s now hml
            have h0 : 0 ≤ m := hmem m hms
            have hk := prune_kept h2
            omega
        · rw [if_neg hpos]
          omega
      · intro habs
        simp at habs
    · have hc' : limit ≤ ((prune (liveWindow s now) (now - window)).length : Int) := by omega
      rw [Allow_denied hb' hc' bd]
      exact ⟨le_refl 0, by dsimp only; omega, fun _ => rfl⟩

theorem claim_c5_witness :
    0 ≤ (Allow ⟨[5], some 1000, none⟩ 3 10 20 8).1.remaining ∧
    8 ≤ (Allow ⟨[5], some 1000, none⟩ 3 10 20 8).1.resetAt ∧
    ((Allow ⟨[5], some 1000, none⟩ 3 10 20 8).1.allowed = false →
      (Allow ⟨[5], some 1000, none⟩ 3 10 20 8).1.remaining = 0) :=
  claim_c5_verdict_bounds ⟨[5], some 1000, none⟩ 3 10 20 8 (by decide) (by decide) (by decide)

theorem claim_c10_witness :
    (Allow Store.empty 0 10 300 5).1.allowed = false ∧
    (Allow Store.empty 0 10 300 5).1.remaining = 0 ∧
    (Allow Store.empty 0 10 300 5).2.block = some ⟨"1", 5 + 300⟩ :=
  claim_c10_nonpositive_limit Store.empty 0 10 300 5 (by decide) (by decide)

/-- C6: `Check` with `is_token = true` uses the token profile when the
identifier has one (the verdict's `Limit` is the token limit and the
storage strategy runs with the token profile's limit, window and penalty on
key `token:<identifier>`); on a lookup miss it uses the IP default profile
while keeping the storage key `token:<identifier>`; with
`is_token = false` it uses the IP default profile on key
`ip:<identifier>`. -/
theorem claim_c6_profile_selection (db : String → Store) (ipConfig : RateLimitConfig)
    (tcs : TokenConfigs) (id : String) (now : Int) :
    (∀ tc, GetTokenConfig tcs id = some tc →
      Check db ipConfig tcs id true now =
        ({ Allowed := (Allow (db ("token:" ++ id)) tc.Limit tc.GetWindowDuration
              tc.GetBlockDuration now).1.allowed,
           Remaining := (Allow (db ("token:" ++ id)) tc.Limit tc.GetWindowDuration
              tc.GetBlockDuration now).1.remaining,
           ResetTime := (Allow (db ("token:" ++ id)) tc.Limit tc.GetWindowDuration
              tc.GetBlockDuration now).1.resetAt,
           Limit := tc.Limit, Identifier := id, IsToken := true },
         fun k => if k = "token:" ++ id then
             (Allow (db ("token:" ++ id)) tc.Limit tc.GetWindowDuration
               tc.GetBlockDuration now).2
           else db k)) ∧
    (GetTokenConfig tcs id = none →
      Check db ipConfig tcs id true now =
        ({ Allowed := (Allow (db ("token:" ++ id)) ipConfig.IPLimit ipConfig.GetWindowDuration
              ipConfig.GetBlockDuration now).1.allowed,
           Remaining := (Allow (db ("token:" ++ id)) ipConfig.IPLimit ipConfig.GetWindowDuration
              ipConfig.GetBlockDuration now).1.remaining,
           ResetTime := (Allow (db ("token:" ++ id)) ipConfig.IPLimit ipConfig.GetWindowDuration
              ipConfig.GetBlockDuration now).1.resetAt,
           Limit := ipConfig.IPLimit, Identifier := id, IsToken := true },
         fun k => if k = "token:" ++ id then
             (Allow (db ("token:" ++ id)) ipConfig.IPLimit ipConfig.GetWindowDuration
               ipConfig.GetBlockDuration now).2
           else db k)) ∧
    (Check db ipConfig tcs id false now =
      ({ Allowed := (Allow (db ("ip:" ++ id)) ipConfig.IPLimit ipConfig.GetWindowDuration
            ipConfig.GetBlockDuration now).1.allowed,
         Remaining := (Allow (db ("ip:" ++ id)) ipConfig.IPLimit ipConfig.GetWindowDuration
            ipConfig.GetBlockDuration now).1.remaining,
         ResetTime := (Allow (db ("ip:" ++ id)) ipConfig.IPLimit ipConfig.GetWindowDuration
            ipConfig.GetBlockDuration now).1.resetAt,
         Limit := ipConfig.IPLimit, Identifier := id, IsToken := false },
       fun k => if k = "ip:" ++ id then
           (Allow (db ("ip:" ++ id)) ipConfig.IPLimit ipConfig.GetWindowDuration
             ipConfig.GetBlockDuration now).2
         else db k)) := by
  refine ⟨?_, ?_, ?_⟩
  · intro tc htc
    simp [Check, createKey, htc]
  · intro htc
    simp [Check, createKey, htc]
  · simp [Check, createKey]

theorem claim_c6_witness :
    GetTokenConfig [("tok", ⟨100, 2, 60⟩)] "tok" = some ⟨100, 2, 60⟩ ∧
    (Check (fun _ => Store.empty) ⟨10, 1, 300⟩ [("tok", ⟨100, 2, 60⟩)] "tok" true 0).1.Limit =
      100 := by
  refine ⟨rfl, ?_⟩
  have h := (claim_c6_profile_selection (fun _ => Store.empty) ⟨10, 1, 300⟩
    [("tok", ⟨100, 2, 60⟩)] "tok" 0).1 ⟨100, 2, 60⟩ rfl
  rw [h]

/-- C7: the identifier precedence of the admission filter: a non-empty
`X-Forwarded-For` header contributes its first comma-delimited element
trimmed of whitespace (when non-empty), else a non-empty `X-Real-IP` is
used, else the peer address with its port stripped (the raw peer address
when `SplitHostPort` errors); and a non-empty `API_KEY` header selects the
token path with the header value as identifier regardless of the IP
extraction result, while an empty one selects the IP path. -/
theorem claim_c7_identifier_precedence (r : Request) :
    (r.xForwardedFor ≠ "" →
      String.mk (trimChars ((splitOnChar ',' r.xForwardedFor.data).headD [])) ≠ "" →
      extractIP r = String.mk (trimChars ((splitOnChar ',' r.xForwardedFor.data).headD []))) ∧
    ((r.xForwardedFor = "" ∨
        String.mk (trimChars ((splitOnChar ',' r.xForwardedFor.data).headD [])) = "") →
      r.xRealIP ≠ "" → extractIP r = r.xRealIP) ∧
    ((r.xForwardedFor = "" ∨
        String.mk (trimChars ((splitOnChar ',' r.xForwardedFor.data).headD [])) = "") →
      r.xRealIP = "" →
      extractIP r = (splitHostPortHost r.remoteAddr).getD r.remoteAddr) ∧
    (r.apiKey ≠ "" → selectIdentifier r = (r.apiKey, true)) ∧
    (r.apiKey = "" → selectIdentifier r = (extractIP r, false)) := by
  simp only [List.headD_eq_head?_getD]
  refine ⟨?_, ?_, ?_, ?_, ?_⟩
  · intro hxff hip
    simp [extractIP, hxff, hip]
  · rintro (hxff | hip) hxri
    · simp [extractIP, hxff, hxri]
    · by_cases hxff : r.xForwardedFor = ""
      · simp [extractIP, hxff, hxri]
      · simp [extractIP, hxff, hip, hxri]
  · rintro (hxff | hip) hxri
    · rcases h : splitHostPortHost r.remoteAddr with - | v <;>
        simp [extractIP, hxff, hxri, h]
    · by_cases hxff : r.xForwardedFor = ""
      · rcases h : splitHostPortHost r.remoteAddr with - | v <;>
          simp [extractIP, hxff, hxri, h]
      · rcases h : splitHostPortHost r.remoteAddr with - | v <;>
          simp [extractIP, hxff, hip, hxri, h]
  · intro hak
    simp [selectIdentifier, hak]
  · intro hak
    simp [selectIdentifier, hak]

theorem claim_c7_witness :
    extractIP ⟨" 1.2.3.4 ,5.6.7.8", "9.9.9.9", "10.0.0.1:8080", ""⟩ = "1.2.3.4" ∧
    selectIdentifier ⟨" 1.2.3.4 ,5.6.7.8", "9.9.9.9", "10.0.0.1:8080", ""⟩ =
      ("1.2.3.4", false) := by
  have h := claim_c7_identifier_precedence ⟨" 1.2.3.4 ,5.6.7.8", "9.9.9.9", "10.0.0.1:8080", ""⟩
  have h1 := h.1 (by decide) (by decide)
  have h5 := h.2.2.2.2 rfl
  constructor
  · rw [h1]
    decide
  · rw [h5, h1]
    decide

/-- C8: when `Check` errors, the filter fails open: the downstream handler
runs, no `X-RateLimit-*` headers are set and no 429 is written; when
`Check` succeeds, the three headers carry the verdict's limit, remaining
and reset time, the handler runs exactly when the verdict admits, and the
429 body is written exactly when it denies. -/
theorem claim_c8_fail_open :
    (∀ e, RateLimitMiddleware (.error e) =
      { rateLimitHeaders := none, nextCalled := true, status429 := false }) ∧
    (∀ res, RateLimitMiddleware (.ok res) =
      { rateLimitHeaders := some (res.Limit, res.Remaining, res.ResetTime),
        nextCalled := res.Allowed, status429 := !res.Allowed }) :=
  ⟨fun _ => rfl, fun _ => rfl⟩

/-! ### The serial rolling-window bound (C1) -/

theorem exists_block_of_true {s : Store} {now : Int}
    (hb : (checkBlockStatus s now).1 = true) :
    ∃ b, s.block = some b ∧ now < b.expiry := by
  unfold checkBlockStatus at hb
  cases hsb : s.block with
  | none => rw [hsb] at hb; simp at hb
  | some b =>
      rw [hsb] at hb
      by_cases h : now < b.expiry
      · exact ⟨b, rfl, h⟩
      · simp [h] at hb

theorem admittedTimes_nil (limit window bd : Int) (s : Store) :
    admittedTimes limit window bd s [] = [] := rfl

theorem admittedTimes_cons (limit window bd : Int) (s : Store) (t : Int) (ts : List Int) :
    admittedTimes limit window bd s (t :: ts) =
      if (Allow s limit window bd t).1.allowed then
        t :: admittedTimes limit window bd (Allow s limit window bd t).2 ts
      else admittedTimes limit window bd (Allow s limit window bd t).2 ts := rfl

theorem minuteNs_pos : (0 : Int) < minuteNs := by norm_num [minuteNs, nsPerSec]

/-- The run invariant behind the rolling-window bound: every already
admitted instant either can no longer fall inside the window of any
remaining call, or is still recorded in the (unexpired) window set. -/
def RunInv (window : Int) (s : Store) (A : List Int) (ts : List Int) : Prop :=
  ∀ a ∈ A, (∀ t ∈ ts, a + window ≤ t) ∨
    (a ∈ s.window ∧ ∃ e, s.windowExpiry = some e ∧ a + window < e)

/-- Induction core of the rolling-window bound: running the remaining
calls from a state and admitted-history satisfying the run invariant keeps
every rolling window's admitted count at or below the limit. -/
theorem admitted_bound_aux (limit window bd : Int) :
    ∀ (ts : List Int), ts.Pairwise (· < ·) →
    ∀ (s : Store) (A : List Int),
      A.Nodup →
      (∀ a ∈ A, ∀ t ∈ ts, a < t) →
      RunInv window s A ts →
      (∀ τ, ((A.filter (inWin window τ)).length : Int) ≤ limit) →
      ∀ τ, (((A ++ admittedTimes limit window bd s ts).filter (inWin window τ)).length : Int)
        ≤ limit := by
  intro ts
  induction ts with
  | nil =>
      intro _ s A _ _ _ hQ τ
      simpa [admittedTimes_nil] using hQ τ
  | cons t ts ih =>
      intro hpw s A hnd hfut hinv hQ τ
      have hpw' : ts.Pairwise (· < ·) := (List.pairwise_cons.mp hpw).2
      have hlt : ∀ t' ∈ ts, t < t' := (List.pairwise_cons.mp hpw).1
      have hfut' : ∀ a ∈ A, ∀ t' ∈ ts, a < t' :=
        fun a ha t' ht' => hfut a ha t' (List.mem_cons_of_mem t ht')
      rw [admittedTimes_cons]
      by_cases hb : (checkBlockStatus s t).1 = true
      · -- blocked path: state unchanged, call denied
        obtain ⟨b, hsb, hltb⟩ := exists_block_of_true hb
        rw [Allow_blocked hsb hltb]
        dsimp only
        rw [if_neg (by simp)]
        refine ih hpw' s A hnd hfut' ?_ hQ τ
        intro a ha
        exact (hinv a ha).imp (fun h t' ht' => h t' (List.mem_cons_of_mem t ht')) id
      · have hb' : (checkBlockStatus s t).1 = false := by
          cases h : (checkBlockStatus s t).1
          · rfl
          · exact absurd h hb
        by_cases hc : ((prune (liveWindow s t) (t - window)).length : Int) < limit
        · -- admission path
          rw [Allow_admitted hb' hc bd]
          dsimp only
          rw [if_pos rfl]
          rw [List.append_cons]
          have htA : t ∉ A := fun hmem =>
            absurd (hfut t hmem t (List.mem_cons_self t ts)) (lt_irrefl t)
          refine ih hpw'
            { s with
                window := (prune (liveWindow s t) (t - window)).insert t,
                windowExpiry := some (t + window + minuteNs) }
            (A ++ [t]) ?_ ?_ ?_ ?_ τ
          · -- Nodup (A ++ [t])
            refine List.Nodup.append hnd (List.nodup_singleton t) ?_
            intro a ha hb2
            have : a = t := by simpa using hb2
            exact htA (this ▸ ha)
          · -- all future calls are later
            intro a ha t' ht'
            rcases List.mem_append.mp ha with h | h
            · exact hfut' a h t' ht'
            · have : a = t := by simpa using h
              exact this ▸ hlt t' ht'
          · -- run invariant for the new state and history
            intro a ha
            rcases List.mem_append.mp ha with h | h
            · rcases hinv a h with h1 | ⟨hmem, e, he, hwin⟩
              · exact Or.inl fun t' ht' => h1 t' (List.mem_cons_of_mem t ht')
              · by_cases hte : t < e
                · by_cases hpr : 0 ≤ a ∧ a ≤ t - window
                  · refine Or.inl fun t' ht' => ?_
                    have := hlt t' ht'
                    omega
                  · refine Or.inr ⟨?_, t + window + minuteNs, rfl, ?_⟩
                    · refine List.mem_insert_of_mem ?_
                      refine mem_prune_of_mem ?_ hpr
                      simp [liveWindow, he, hte, hmem]
                    · have hat : a < t := hfut a h t (List.mem_cons_self t ts)
                      have := minuteNs_pos
                      omega
                · refine Or.inl fun t' ht' => ?_
                  have h1 := hlt t' ht'
                  have h2 : liveWindow s t = [] := by simp [liveWindow, he, hte]
                  omega
            · have hat : a = t := by simpa using h
              subst hat
              refine Or.inr ⟨List.mem_insert_self a _, a + window + minuteNs, rfl, ?_⟩
              have := minuteNs_pos
              omega
          · -- rolling-window bound for the extended history
            intro τ'
            rw [List.filter_append, List.length_append]
            by_cases hin : inWin window τ' t = true
            · have hone : (List.filter (inWin window τ') [t]).length = 1 := by
                simp [List.filter_singleton, hin]
              rw [hone]
              have hsub : A.filter (inWin window τ') ⊆ prune (liveWindow s t) (t - window) := by
                intro a ha
                have haA := (List.mem_filter.mp ha).1
                have h1 : τ' - window < a ∧ a ≤ τ' := by
                  simpa [inWin] using (List.mem_filter.mp ha).2
                have h2 : τ' - window < t ∧ t ≤ τ' := by simpa [inWin] using hin
                have h3 : t - window < a := by omega
                rcases hinv a haA with hdisj | ⟨hmem, e, he, hwin⟩
                · exfalso
                  have := hdisj t (List.mem_cons_self t ts)
                  omega
                · have hte : t < e := by omega
                  refine mem_prune_of_mem ?_ (by omega)
                  simp [liveWindow, he, hte, hmem]
              have hlen : (A.filter (inWin window τ')).length ≤
                  (prune (liveWindow s t) (t - window)).length :=
                length_le_of_nodup_subset (hnd.filter _) hsub
              push_cast
              omega
            · have hzero : (List.filter (inWin window τ') [t]).length = 0 := by
                simp [List.filter_singleton, hin]
              rw [hzero]
              have := hQ τ'
              push_cast at this ⊢
              omega
        · -- over-limit denial path
          have hc' : limit ≤ ((prune (liveWindow s t) (t - window)).length : Int) := by omega
          rw [Allow_denied hb' hc' bd]
          dsimp only
          rw [if_neg (by simp)]
          refine ih hpw'
            { s with
                window := prune (liveWindow s t) (t - window),
                block := some ⟨"1", t + bd⟩ }
            A hnd hfut' ?_ hQ τ
          intro a ha
          rcases hinv a ha with h1 | ⟨hmem, e, he, hwin⟩
          · exact Or.inl fun t' ht' => h1 t' (List.mem_cons_of_mem t ht')
          · by_cases hte : t < e
            · by_cases hpr : 0 ≤ a ∧ a ≤ t - window
              · refine Or.inl fun t' ht' => ?_
                have := hlt t' ht'
                omega
              · refine Or.inr ⟨?_, e, he, hwin⟩
                refine mem_prune_of_mem ?_ hpr
                simp [liveWindow, he, hte, hmem]
            · refine Or.inl fun t' ht' => ?_
              have := hlt t' ht'
              omega

/-- C1 (amended): for every serial sequence of `Allow` calls at strictly
increasing instants against one identifier, with a fixed `limit ≥ 1`,
window and penalty, at most `limit` of the calls whose instants lie within
any one rolling window `(τ - window, τ]` are admitted. -/
theorem claim_c1_rolling_window_bound (limit window bd : Int) (ts : List Int) (τ : Int)
    (hl : 1 ≤ limit) (hts : ts.Pairwise (· < ·)) :
    (((admittedTimes limit window bd Store.empty ts).filter (inWin window τ)).length : Int)
      ≤ limit := by
  have h := admitted_bound_aux limit window bd ts hts Store.empty []
    List.nodup_nil (by simp) (by intro a ha; simp at ha)
    (by intro τ'; simp; omega) τ
  simpa using h

theorem claim_c1_witness :
    (1 : Int) ≤ 2 ∧ List.Pairwise (· < ·) [(0 : Int), 3, 6] ∧
    (((admittedTimes 2 10 100 Store.empty [(0 : Int), 3, 6]).filter (inWin 10 6)).length : Int)
      ≤ 2 :=
  ⟨by decide, by decide,
   claim_c1_rolling_window_bound 2 10 100 [0, 3, 6] 6 (by decide) (by decide)⟩

/-- C1 as stated is false on the code: three serial (one-at-a-time,
non-decreasing) calls at the same nanosecond instant with `limit = 2` are
all admitted — `ZAdd` of an identical member/score overwrites, so the
window cardinality stays at 1 and every further call at that instant passes
the pre-insertion test; the rolling window `(-5, 5]` then holds 3 admitted
calls. -/
theorem claim_c1_counterexample :
    List.Pairwise (· ≤ ·) [(5 : Int), 5, 5] ∧ (1 : Int) ≤ 2 ∧
    2 < (((admittedTimes 2 10 100 Store.empty [(5 : Int), 5, 5]).filter (inWin 10 5)).length :
      Int) := by
  refine ⟨by decide, by decide, ?_⟩
  decide

end RateLimiterProof
